import Mathlib

set_option maxRecDepth 100000

/-!
Shallow embedding of the instrumentation scripts of the
`pokemon-card-battle` repository (`add_debug_final.py`,
`add_debug_logs.py`, `add_debug_logs_simple.py`) and proofs about them.

Python strings are modelled as `List Char`; a file buffer is the list of
characters of the file content.  `content.split('\n')` and
`'\n'.join(lines)` are modelled by `splitNl` and `joinNl`.  Python's
substring test `pat in s` is `pyIn pat s`, `line.strip()` is `pyStrip`,
and `lines[i-1]` / `lines[i+1]` indexing is made explicit in the loop
embedding (`finalGo`), including the Python semantics that `lines[-1]`
is the last element and that an out-of-range positive index raises
`IndexError` (modelled by returning `none`).
-/

/-- Characters stripped by Python `str.strip()` (the ASCII whitespace
set; the anchors and buffers in question contain no other whitespace). -/
def isPySpace (c : Char) : Bool :=
  c == ' ' || c == '\t' || c == '\n' || c == '\r' || c == '\x0b' || c == '\x0c'

/-- Python `s.strip()`: drop leading and trailing whitespace. -/
def pyStrip (l : List Char) : List Char :=
  (l.dropWhile isPySpace).rdropWhile isPySpace

/-- Python substring test `pat in s`. -/
def pyIn (pat : List Char) : List Char → Bool
  | [] => pat.isEmpty
  | c :: cs => pat.isPrefixOf (c :: cs) || pyIn pat cs

/-- Python `s.split('\n')` (never returns an empty list). -/
def splitNl : List Char → List (List Char)
  | [] => [[]]
  | c :: cs =>
    if c = '\n' then [] :: splitNl cs
    else
      match splitNl cs with
      | [] => [[c]]
      | l :: ls => (c :: l) :: ls

/-- Python `'\n'.join(lines)`. -/
def joinNl : List (List Char) → List Char
  | [] => []
  | l :: ls =>
    match ls with
    | [] => l
    | _ :: _ => l ++ '\n' :: joinNl ls

/-- Outcome of running one of the per-file functions: the script either
returns early without writing (`skipped`), writes the new content
(`wrote`), or raises an uncaught `IndexError` (`err`). -/
inductive RunResult where
  | skipped : RunResult
  | wrote : List Char → RunResult
  | err : RunResult
deriving DecidableEq

namespace AddDebugFinal

/- Constants of `add_debug_final.add_logs_to_game_js` (braces and
quotes are written with `\x7b`, `\x7d`, `\x27` escapes). -/

def marker1 : List Char := "DEBUG: Click event occurred".data

def marker2 : List Char := "// DEBUG: Click event occurred".data

def anchor1sub : List Char := "const \x7b owner, zone, cardId, index \x7d = dataset;".data

def ctx1 : List Char := "async _handleCardClick".data

def ins1 : List (List Char) :=
  [ "".data,
    "        // DEBUG: Click event occurred".data,
    "        console.log(\x27Card Click:\x27, \x7b".data,
    "            owner,".data,
    "            zone,".data,
    "            cardId,".data,
    "            index,".data,
    "            currentPhase: this.state.phase,".data,
    "            turnPlayer: this.state.turnPlayer,".data,
    "            isProcessing: this.state.isProcessing".data,
    "        \x7d);".data ]

def anchor2 : List Char := "if (this.state.isProcessing) \x7b".data

def ctx2 : List Char := "処理中の場合はクリックを無視".data

def log2 : List Char := "            console.log(\x27BLOCKED: isProcessing = true\x27);".data

def anchor3 : List Char :=
  "if (this.state.turnPlayer === \x27player\x27 && owner === \x27cpu\x27) \x7b".data

def ctx3 : List Char := "ターンプレイヤーと所有者のチェック".data

def log3 : List Char :=
  "            console.log(\x27BLOCKED: Player turn, CPU card clicked\x27, \x7b zone \x7d);".data

def anchor4 : List Char := "if (zone === \x27active\x27 || zone === \x27bench\x27) \x7b".data

def ctx4 : List Char := "CPUのカードは情報表示のみ許可".data

def log4 : List Char :=
  "                console.log(\x27INFO: Info display allowed for CPU active/bench\x27);".data

def anchor5 : List Char :=
  "if (this.state.turnPlayer === \x27cpu\x27 && owner === \x27player\x27) \x7b".data

def log5 : List Char :=
  "            console.log(\x27BLOCKED: CPU turn, Player card clicked\x27);".data

def anchor6 : List Char := "// Handle different phases".data

def switchSub : List Char := "switch".data

def log6 : List Char := "        console.log(\x27ALLOWED: Click allowed, processing...\x27);".data

def emptyLine : List Char := "".data

/-- Test a pattern against `lines[i-1]`.  In the loop, `prev` is the
predecessor of the current line in the ORIGINAL line list; at `i = 0`
Python's `lines[-1]` wraps around to the LAST line, so `prev` is then
the last original line (see `processLines`). -/
def prevHas (prev : Option (List Char)) (pat : List Char) : Bool :=
  match prev with
  | none => false
  | some p => pyIn pat p

/-- The `while i < len(lines)` loop of `add_logs_to_game_js`
(add_debug_final.py lines 24-63).  `acc` is `new_lines`, `i` the loop
index, `prev` is `lines[i-1]` (wrapping to the last line at `i = 0`).
Rule 6 evaluates `lines[i+1]`, which raises `IndexError` (`none`) when
the current line is the last one; its two `new_lines.insert(-1, ...)`
calls place the inserted lines immediately BEFORE the anchor line. -/
def finalGo : Option (List Char) → Nat → List (List Char) → List (List Char) →
    Option (List (List Char))
  | _, _, acc, [] => some acc
  | prev, i, acc, line :: rest =>
    if pyIn anchor1sub line && prevHas prev ctx1 then
      finalGo (some line) (i + 1) (acc ++ line :: ins1) rest
    else if pyStrip line == anchor2 && decide (0 < i) && prevHas prev ctx2 then
      finalGo (some line) (i + 1) (acc ++ [line, log2]) rest
    else if pyStrip line == anchor3 && decide (0 < i) && prevHas prev ctx3 then
      finalGo (some line) (i + 1) (acc ++ [line, log3]) rest
    else if pyStrip line == anchor4 && prevHas prev ctx4 then
      finalGo (some line) (i + 1) (acc ++ [line, log4]) rest
    else if pyStrip line == anchor5 then
      finalGo (some line) (i + 1) (acc ++ [line, log5]) rest
    else if pyStrip line == anchor6 then
      match rest with
      | [] => none
      | next :: _ =>
        if pyIn switchSub next then
          finalGo (some line) (i + 1) (acc ++ [emptyLine, log6, line]) rest
        else
          finalGo (some line) (i + 1) (acc ++ [line]) rest
    else
      finalGo (some line) (i + 1) (acc ++ [line]) rest

/-- The full line-transformation pass of `add_logs_to_game_js`:
run the loop over all lines, starting with `new_lines = []`, `i = 0`
and `lines[i-1] = lines[-1]` (the last line). -/
def processLines (lines : List (List Char)) : Option (List (List Char)) :=
  finalGo lines.getLast? 0 [] lines

/-- `add_debug_final.add_logs_to_game_js` as a function from file
content to outcome: the marker check short-circuits to a skip (no
write); otherwise the loop runs and the joined result is written back
(unconditionally), unless rule 6 raised `IndexError`. -/
def add_logs_to_game_js (content : List Char) : RunResult :=
  if pyIn marker1 content || pyIn marker2 content then .skipped
  else
    match processLines (splitNl content) with
    | none => .err
    | some nl => .wrote (joinNl nl)

end AddDebugFinal

/-!
A tiny matcher for the regular expressions appearing in these scripts.
Every pattern used is a concatenation of literal text and `\s+` runs,
and in each of them every `\s+` is followed either by a character that
is not whitespace or by the end of the pattern, so Python's greedy
backtracking semantics coincide with maximal munch and a token-list
matcher is exact for them.
-/

/-- One token of such a pattern: literal text, or `\s+`. -/
inductive RTok where
  | lit : List Char → RTok
  | wsPlus : RTok

/-- Match a token list at the head of `s`; return the matched text and
the rest.  `\s+` takes the maximal whitespace run (and must be
nonempty). -/
def matchToks : List RTok → List Char → Option (List Char × List Char)
  | [], s => some ([], s)
  | .lit p :: ts, s =>
    if p.isPrefixOf s then
      (matchToks ts (s.drop p.length)).map (fun mr => (p ++ mr.1, mr.2))
    else none
  | .wsPlus :: ts, s =>
    let w := s.takeWhile isPySpace
    if w.isEmpty then none
    else (matchToks ts (s.dropWhile isPySpace)).map (fun mr => (w ++ mr.1, mr.2))

namespace AddDebugLogs

/- `add_debug_logs.add_logs_to_game_js`, pattern 1 (lines 17-33):
`re.sub(pattern1, replacement1, content)` with
`pattern1 = r'(async _handleCardClick\(dataset\) \{\s+const \{ owner, zone, cardId, index \} = dataset;)\s+'`
and `replacement1 = '\1' + fixed text`.  The capture group is the part
of the match before the trailing `\s+`. -/

def p1lit1 : List Char := "async _handleCardClick(dataset) \x7b".data

def p1lit2 : List Char := "const \x7b owner, zone, cardId, index \x7d = dataset;".data

/-- Tokens of the capture group of pattern 1. -/
def p1group : List RTok := [.lit p1lit1, .wsPlus, .lit p1lit2]

/-- Replacement text appended after the backreference `\1`
(raw triple-quoted string of add_debug_logs.py lines 18-31, minus the
leading `\1`). -/
def repl1tail : List Char :=
  ("\n\n        // 🔍 デバッグログ: クリックイベント発生\n        console.log(\x27🖱️ Card Click:\x27, \x7b\n            owner,\n            zone,\n            cardId,\n            index,\n            currentPhase: this.state.phase,\n            turnPlayer: this.state.turnPlayer,\n            isProcessing: this.state.isProcessing\n        \x7d);\n\n        ").data

/-- `re.sub` scan for pattern 1 (replace ALL non-overlapping matches,
continuing after each match; the replacement itself is not rescanned).
Each match consumes at least one character, so fuel `s.length` is
enough; the fuel only bounds the recursion. -/
def subP1Go : Nat → List Char → List Char
  | 0, s => s
  | _ + 1, [] => []
  | fuel + 1, c :: cs =>
    match matchToks p1group (c :: cs) with
    | some (g, rest1) =>
      -- the trailing `\s+` of the pattern, outside the capture group
      if (rest1.takeWhile isPySpace).isEmpty then c :: subP1Go fuel cs
      else g ++ repl1tail ++ subP1Go fuel (rest1.dropWhile isPySpace)
    | none => c :: subP1Go fuel cs

/-- Lines 17-33 of `add_debug_logs.add_logs_to_game_js`:
`content = re.sub(pattern1, replacement1, content)`. -/
def subPattern1 (content : List Char) : List Char :=
  subP1Go content.length content

end AddDebugLogs

namespace AddDebugFinal

/- `add_debug_final.add_logs_to_view_js` (lines 70-94): marker check,
then `re.sub(pattern, replacement, content, count=1)`. -/

def viewMarker : List Char := "SLOT CLICKED (view.js):".data

def viewLit1 : List Char :=
  "const cardInSlot = slotElement.querySelector(\x27[data-card-id]\x27);".data

def viewLit2 : List Char :=
  "const cardId = cardInSlot ? (cardInSlot.dataset.runtimeId || cardInSlot.dataset.cardId) : null;".data

def viewGroup : List RTok := [.lit viewLit1, .wsPlus, .lit viewLit2]

def viewReplTail : List Char :=
  ("\n\n            console.log(\x27SLOT CLICKED (view.js):\x27, \x7b\n                owner,\n                zone,\n                index,\n                hasCard: !!cardId,\n                cardId\n            \x7d);").data

/-- `re.sub(..., count=1)` scan for the view pattern: replace the first
match only (the whole pattern is the capture group, no trailing
`\s+`). -/
def subViewGo : Nat → List Char → List Char
  | 0, s => s
  | _ + 1, [] => []
  | fuel + 1, c :: cs =>
    match matchToks viewGroup (c :: cs) with
    | some (g, rest) => g ++ viewReplTail ++ rest
    | none => c :: subViewGo fuel cs

def add_logs_to_view_js (content : List Char) : RunResult :=
  if pyIn viewMarker content then .skipped
  else .wrote (subViewGo content.length content)

/- `add_debug_final.add_logs_to_interaction_js` (lines 96-132): marker
check, then a line loop with two rules (both substring anchors; the
second also checks `lines[i-1]`, wrapping at `i = 0`).  No rule indexes
past the end, so the loop is total. -/

def interMarker : List Char := "THREE.JS MOUSE DOWN:".data

def interAnchorA : List Char :=
  "const object = this._findInteractiveParent(firstHit.object);".data

def interInsA : List (List Char) :=
  [ "".data,
    "            console.log(\x27THREE.JS MOUSE DOWN:\x27, \x7b".data,
    "                objectType: object?.userData?.type,".data,
    "                owner: object?.userData?.owner,".data,
    "                isDraggable: object?.userData?.isDraggable,".data,
    "                currentPlayer: this.gameState?.turnPlayer".data,
    "            \x7d);".data ]

def interAnchorB : List Char :=
  "if (this.gameState && this.gameState.turnPlayer !== \x27player\x27) \x7b".data

def interCtxB : List Char := "CPUターン中はドラッグ不可".data

def interLogB : List Char :=
  "                    console.log(\x27DRAG BLOCKED: Wrong turn\x27, \x7b owner: object.userData.owner, currentPlayer: this.gameState.turnPlayer \x7d);".data

def interGo : Option (List Char) → List (List Char) → List (List Char) → List (List Char)
  | _, acc, [] => acc
  | prev, acc, line :: rest =>
    if pyIn interAnchorA line then
      interGo (some line) (acc ++ line :: interInsA) rest
    else if pyIn interAnchorB line && prevHas prev interCtxB then
      interGo (some line) (acc ++ [line, interLogB]) rest
    else
      interGo (some line) (acc ++ [line]) rest

def add_logs_to_interaction_js (content : List Char) : RunResult :=
  if pyIn interMarker content then .skipped
  else .wrote (joinNl (interGo (splitNl content).getLast? [] (splitNl content)))

/-- The `__main__` block of add_debug_final.py (lines 134-139): the
three per-file functions are called in sequence with NO exception
handling.  A file that cannot be read is modelled as `none`; an
`IOError` (or the `IndexError` of rule 6) propagates and aborts the
whole script, so nothing after it runs.  Result: the outcomes of the
files actually processed, and whether the batch ran to completion. -/
def mainRun (game view inter : Option (List Char)) : List RunResult × Bool :=
  match game with
  | none => ([], false)
  | some cg =>
    match add_logs_to_game_js cg with
    | .err => ([.err], false)
    | rg =>
      match view with
      | none => ([rg], false)
      | some cv =>
        let rv := add_logs_to_view_js cv
        match inter with
        | none => ([rg, rv], false)
        | some ci => ([rg, rv, add_logs_to_interaction_js ci], true)

end AddDebugFinal

/-- A list of characters that is all whitespace (as stripped by
Python). -/
def wsRun (l : List Char) : Prop := ∀ c ∈ l, isPySpace c = true

/-- `n` spaces of indentation. -/
def spaces (n : Nat) : List Char := List.replicate n ' '

/-- The leading whitespace of a line. -/
def leadingWs (l : List Char) : List Char := l.takeWhile isPySpace

namespace AddDebugFinal

/-- Every line the game-js loop can ever insert. -/
def insAll : List (List Char) := ins1 ++ [log2, log3, log4, log5, emptyLine, log6]

/-- A `switch` line as found in game.js, used in the scenario
buffers. -/
def switchLine : List Char := "switch (this.state.phase) \x7b".data

/-- Scenario buffer for the overlapping-insertions claim: rule 5
inserts after line 0 and rule 6 inserts before line 1, so both planned
insertions resolve to line index 1. -/
def conflictBuf : List (List Char) := [anchor5, anchor6, switchLine]

/-- The comment line that precedes the rule-2 anchor in game.js. -/
def ctxLine2 : List Char := "// 処理中の場合はクリックを無視".data

/-- Two-line buffer whose second line matches rule 2; rule 2 inserts a
line that contains no marker, so a second run re-applies it. -/
def rule2Buf : List (List Char) := [ctxLine2, anchor2]

/-- Two-line buffer that makes rule 1 fire (and hence insert the
marker line). -/
def rule1Buf : List (List Char) :=
  [ "    async _handleCardClick(dataset) \x7b".data,
    "        const \x7b owner, zone, cardId, index \x7d = dataset;".data ]

end AddDebugFinal

/-- A buffer for `AddDebugLogs.subPattern1` whose pattern-1 anchor is
followed by the whitespace run `"\n\t"`; the `re.sub` consumes that
run and replaces it with fixed whitespace, destroying the tab. -/
def tabBuf : List Char :=
  ("async _handleCardClick(dataset) \x7b\n    const \x7b owner, zone, cardId, index \x7d = dataset;\n\tx").data

/-! Basic lemmas about the string primitives. -/

theorem pyIn_iff (pat s : List Char) : pyIn pat s = true ↔ pat <:+: s := by
  induction s with
  | nil => simp [pyIn, List.isEmpty_iff]
  | cons c cs ih =>
    simp [pyIn, List.infix_cons_iff, Bool.or_eq_true, List.isPrefixOf_iff_prefix, ih]

theorem pyIn_eq_false_of_not_mem (pat s : List Char) (c : Char) (hc : c ∈ pat)
    (hs : c ∉ s) : pyIn pat s = false := by
  cases h : pyIn pat s with
  | false => rfl
  | true =>
    exact absurd (((pyIn_iff pat s).1 h).subset hc) hs

theorem pyIn_trans (p q s : List Char) (hpq : p <:+: q) (h : pyIn q s = true) :
    pyIn p s = true :=
  (pyIn_iff p s).2 (hpq.trans ((pyIn_iff q s).1 h))

theorem dropWhile_ws_append (pre t : List Char) (h : wsRun pre) :
    (pre ++ t).dropWhile isPySpace = t.dropWhile isPySpace := by
  induction pre with
  | nil => rfl
  | cons c cs ih =>
    have hc : isPySpace c = true := h c (by simp)
    have ih' := ih (fun x hx => h x (by simp [hx]))
    simp [List.dropWhile_cons, hc, ih']

theorem takeWhile_ws_append (pre t : List Char) (h : wsRun pre) :
    (pre ++ t).takeWhile isPySpace = pre ++ t.takeWhile isPySpace := by
  induction pre with
  | nil => rfl
  | cons c cs ih =>
    have hc : isPySpace c = true := h c (by simp)
    have ih' := ih (fun x hx => h x (by simp [hx]))
    simp [List.takeWhile_cons, hc, ih']

theorem rdropWhile_append_rtakeWhile (p : Char → Bool) (l : List Char) :
    l.rdropWhile p ++ l.rtakeWhile p = l := by
  rw [List.rdropWhile, List.rtakeWhile, ← List.reverse_append,
    List.takeWhile_append_dropWhile, List.reverse_reverse]

theorem pyStrip_pad (pre a post : List Char) (hpre : wsRun pre) (hpost : wsRun post)
    (hne : a ≠ []) (hhd : isPySpace (a.head hne) = false)
    (hlast : isPySpace (a.getLast hne) = false) :
    pyStrip (pre ++ a ++ post) = a := by
  obtain ⟨hd, tl, rfl⟩ := List.exists_cons_of_ne_nil hne
  have hhd' : isPySpace hd = false := hhd
  have hdw : List.dropWhile isPySpace (hd :: tl) = hd :: tl := by
    rw [List.dropWhile_cons, hhd']
    simp
  rw [pyStrip, List.append_assoc, dropWhile_ws_append _ _ hpre, List.dropWhile_append, hdw]
  simp only [List.isEmpty_cons, Bool.false_eq_true, if_false]
  rw [List.rdropWhile, List.reverse_append, List.dropWhile_append]
  have hrev : (post.reverse.dropWhile isPySpace) = [] := by
    rw [List.dropWhile_eq_nil_iff]
    intro x hx
    exact hpost x (List.mem_reverse.1 hx)
  rw [hrev]
  simp only [List.isEmpty_nil, if_true]
  have hlast' : ((hd :: tl).reverse).dropWhile isPySpace = (hd :: tl).reverse := by
    have hne2 : (hd :: tl).reverse ≠ [] := by simp
    obtain ⟨b, bs, hb⟩ := List.exists_cons_of_ne_nil hne2
    have hbval : isPySpace b = false := by
      have h2 : some b = (hd :: tl).getLast? := by
        rw [← List.head?_reverse, hb]
        rfl
      rw [List.getLast?_eq_getLast _ hne] at h2
      rw [Option.some.inj h2]
      exact hlast
    rw [hb, List.dropWhile_cons, hbval]
    simp
  rw [hlast', List.reverse_reverse]

theorem pyStrip_decomp (l : List Char) :
    ∃ pre post, wsRun pre ∧ wsRun post ∧ l = pre ++ pyStrip l ++ post := by
  refine ⟨l.takeWhile isPySpace, (l.dropWhile isPySpace).rtakeWhile isPySpace,
    fun c hc => List.mem_takeWhile_imp hc,
    fun c hc => List.mem_rtakeWhile_imp hc, ?_⟩
  rw [pyStrip, List.append_assoc, rdropWhile_append_rtakeWhile,
    List.takeWhile_append_dropWhile]

/-! Lemmas about `splitNl` / `joinNl`. -/

theorem splitNl_ne_nil (s : List Char) : splitNl s ≠ [] := by
  cases s with
  | nil => simp [splitNl]
  | cons c cs =>
    rw [splitNl]
    split
    · simp
    · split <;> simp

theorem joinNl_splitNl (s : List Char) : joinNl (splitNl s) = s := by
  induction s with
  | nil => rfl
  | cons c cs ih =>
    rw [splitNl]
    split
    · rename_i hc
      obtain ⟨l, ls, hls⟩ := List.exists_cons_of_ne_nil (splitNl_ne_nil cs)
      rw [hls]
      have he : joinNl ([] :: l :: ls) = '\n' :: joinNl (l :: ls) := rfl
      rw [he, ← hls, ih, hc]
    · rename_i hc
      cases hls : splitNl cs with
      | nil => exact absurd hls (splitNl_ne_nil cs)
      | cons l ls =>
        rw [hls] at ih
        cases ls with
        | nil =>
          have ih' : l = cs := ih
          show (c :: l : List Char) = c :: cs
          rw [ih']
        | cons m ms =>
          have ih' : l ++ '\n' :: joinNl (m :: ms) = cs := ih
          show c :: (l ++ '\n' :: joinNl (m :: ms)) = c :: cs
          rw [ih']

theorem splitNl_single (l : List Char) (h : '\n' ∉ l) : splitNl l = [l] := by
  induction l with
  | nil => rfl
  | cons c cs ih =>
    have hc : ¬(c = '\n') := fun he => h (by simp [he])
    rw [splitNl, if_neg hc, ih (fun hm => h (by simp [hm]))]

theorem splitNl_append_newline (l t : List Char) (h : '\n' ∉ l) :
    splitNl (l ++ '\n' :: t) = l :: splitNl t := by
  induction l with
  | nil => simp [splitNl]
  | cons c cs ih =>
    have hc : ¬(c = '\n') := fun he => h (by simp [he])
    rw [List.cons_append, splitNl, if_neg hc, ih (fun hm => h (by simp [hm]))]

theorem splitNl_joinNl (nl : List (List Char)) (hne : nl ≠ [])
    (h : ∀ l ∈ nl, '\n' ∉ l) : splitNl (joinNl nl) = nl := by
  induction nl with
  | nil => exact absurd rfl hne
  | cons l ls ih =>
    cases ls with
    | nil => exact splitNl_single l (h l (by simp))
    | cons m ms =>
      have he : joinNl (l :: m :: ms) = l ++ '\n' :: joinNl (m :: ms) := rfl
      rw [he, splitNl_append_newline _ _ (h l (by simp)),
        ih (by simp) (fun x hx => h x (by simp [hx]))]

theorem splitNl_no_nl (s : List Char) : ∀ l ∈ splitNl s, '\n' ∉ l := by
  induction s with
  | nil =>
    intro l hl
    rw [splitNl] at hl
    rcases List.mem_singleton.1 hl with rfl
    simp
  | cons c cs ih =>
    intro l hl
    rw [splitNl] at hl
    split at hl
    · rcases List.mem_cons.1 hl with h0 | h0
      · subst h0
        simp
      · exact ih l h0
    · rename_i hc
      cases hsp : splitNl cs with
      | nil => exact absurd hsp (splitNl_ne_nil cs)
      | cons m ms =>
        rw [hsp] at hl
        rcases List.mem_cons.1 hl with h0 | h0
        · subst h0
          intro hmem
          rcases List.mem_cons.1 hmem with h1 | h1
          · exact hc h1.symm
          · exact ih m (by rw [hsp]; simp) h1
        · exact ih l (by rw [hsp]; simp [h0])

/-! Structural lemmas about the game-js loop. -/

namespace AddDebugFinal

theorem finalGo_sublist (rest : List (List Char)) :
    ∀ prev i acc out, finalGo prev i acc rest = some out → List.Sublist (acc ++ rest) out := by
  induction rest with
  | nil =>
    intro prev i acc out h
    simp only [finalGo] at h
    cases h
    simp
  | cons line rest ih =>
    intro prev i acc out h
    simp only [finalGo] at h
    have step : ∀ ins : List (List Char),
        finalGo (some line) (i + 1) (acc ++ line :: ins) rest = some out →
        List.Sublist (acc ++ line :: rest) out := by
      intro ins hcall
      have h1 := ih _ _ _ _ hcall
      refine List.Sublist.trans ?_ h1
      have e1 : acc ++ line :: rest = (acc ++ [line]) ++ rest := by simp
      have e2 : (acc ++ line :: ins) ++ rest = ((acc ++ [line]) ++ ins) ++ rest := by simp
      rw [e1, e2]
      exact (List.sublist_append_left (acc ++ [line]) ins).append_right rest
    have stepBefore :
        finalGo (some line) (i + 1) (acc ++ [emptyLine, log6, line]) rest = some out →
        List.Sublist (acc ++ line :: rest) out := by
      intro hcall
      have h1 := ih _ _ _ _ hcall
      refine List.Sublist.trans ?_ h1
      have e1 : acc ++ line :: rest = (acc ++ [line]) ++ rest := by simp
      rw [e1]
      refine List.Sublist.append_right ?_ rest
      exact List.Sublist.append_left
        (List.Sublist.cons _ (List.Sublist.cons _ (List.Sublist.refl [line]))) acc
    split_ifs at h
    · exact step ins1 h
    · exact step [log2] h
    · exact step [log3] h
    · exact step [log4] h
    · exact step [log5] h
    · -- rule 6: the match on `rest`
      cases rest with
      | nil => exact absurd h (by simp)
      | cons next rest2 =>
        simp only [] at h
        split_ifs at h
        · exact stepBefore h
        · exact step [] h
    · exact step [] h

theorem finalGo_mem (rest : List (List Char)) :
    ∀ prev i acc out, finalGo prev i acc rest = some out →
      ∀ l ∈ out, l ∈ acc ∨ l ∈ rest ∨ l ∈ insAll := by
  induction rest with
  | nil =>
    intro prev i acc out h l hl
    simp only [finalGo] at h
    cases h
    exact Or.inl hl
  | cons line rest ih =>
    intro prev i acc out h l hl
    simp only [finalGo] at h
    have step : ∀ ins : List (List Char), ins ⊆ line :: insAll →
        finalGo (some line) (i + 1) (acc ++ line :: ins) rest = some out →
        l ∈ acc ∨ l ∈ line :: rest ∨ l ∈ insAll := by
      intro ins hsub hcall
      rcases ih _ _ _ _ hcall l hl with hmem | hmem | hmem
      · rw [List.mem_append] at hmem
        rcases hmem with hmem | hmem
        · exact Or.inl hmem
        · rcases List.mem_cons.1 hmem with hmem | hmem
          · exact Or.inr (Or.inl (by simp [hmem]))
          · rcases List.mem_cons.1 (hsub hmem) with hmem2 | hmem2
            · exact Or.inr (Or.inl (by simp [hmem2]))
            · exact Or.inr (Or.inr hmem2)
      · exact Or.inr (Or.inl (List.mem_cons_of_mem _ hmem))
      · exact Or.inr (Or.inr hmem)
    have stepBefore :
        finalGo (some line) (i + 1) (acc ++ [emptyLine, log6, line]) rest = some out →
        l ∈ acc ∨ l ∈ line :: rest ∨ l ∈ insAll := by
      intro hcall
      rcases ih _ _ _ _ hcall l hl with hmem | hmem | hmem
      · rw [List.mem_append] at hmem
        rcases hmem with hmem | hmem
        · exact Or.inl hmem
        · rcases List.mem_cons.1 hmem with hmem2 | hmem2
          · exact Or.inr (Or.inr (by simp [insAll, hmem2]))
          · rcases List.mem_cons.1 hmem2 with hmem3 | hmem3
            · exact Or.inr (Or.inr (by simp [insAll, hmem3]))
            · exact Or.inr (Or.inl (by simp at hmem3; simp [hmem3]))
      · exact Or.inr (Or.inl (List.mem_cons_of_mem _ hmem))
      · exact Or.inr (Or.inr hmem)
    split_ifs at h
    · exact step ins1 (fun x hx => by simp [insAll, List.mem_cons.2, Or.inr hx]; tauto) h
    · exact step [log2] (by intro x hx; simp at hx; simp [insAll, hx]) h
    · exact step [log3] (by intro x hx; simp at hx; simp [insAll, hx]) h
    · exact step [log4] (by intro x hx; simp at hx; simp [insAll, hx]) h
    · exact step [log5] (by intro x hx; simp at hx; simp [insAll, hx]) h
    · cases rest with
      | nil => exact absurd h (by simp)
      | cons next rest2 =>
        simp only [] at h
        split_ifs at h
        · exact stepBefore h
        · exact step [] (by simp) h
    · exact step [] (by simp) h

theorem finalGo_ne_none (rest : List (List Char)) :
    ∀ prev i acc, (∀ x, rest.getLast? = some x → pyStrip x ≠ anchor6) →
      finalGo prev i acc rest ≠ none := by
  induction rest with
  | nil =>
    intro prev i acc _ h
    simp only [finalGo] at h
    cases h
  | cons line rest ih =>
    intro prev i acc hlast h
    simp only [finalGo] at h
    split_ifs at h <;> try exact ih _ _ _ (by
      intro x hx
      apply hlast
      cases rest with
      | nil => simp at hx
      | cons n r2 => rw [List.getLast?_cons_cons]; exact hx) h
    · -- rule 6 branch
      rename_i h1 h2 h3 h4 h5 h6
      cases rest with
      | nil =>
        have : pyStrip line = anchor6 := by
          have := (beq_iff_eq (a := pyStrip line) (b := anchor6)).1 h6
          exact this
        exact hlast line (by simp) this
      | cons next rest2 =>
        simp only [] at h
        have hcont : ∀ x, (next :: rest2).getLast? = some x → pyStrip x ≠ anchor6 := by
          intro x hx
          apply hlast
          rw [List.getLast?_cons_cons]
          exact hx
        split_ifs at h
        · exact ih _ _ _ hcont h
        · exact ih _ _ _ hcont h

theorem pyIn_padded_false (pat a pre post : List Char) (c : Char) (hc : c ∈ pat)
    (hcs : isPySpace c = false) (hca : c ∉ a) (hpre : wsRun pre) (hpost : wsRun post) :
    pyIn pat (pre ++ a ++ post) = false := by
  apply pyIn_eq_false_of_not_mem _ _ c hc
  intro hmem
  rcases List.mem_append.1 hmem with hm | hm
  · rcases List.mem_append.1 hm with hm2 | hm2
    · simp [hpre c hm2] at hcs
    · exact hca hm2
  · simp [hpost c hm] at hcs

theorem wsRun_spaces (n : Nat) : wsRun (spaces n) := by
  intro c hc
  rw [List.eq_of_mem_replicate hc]
  rfl

/-! Step lemmas: evaluate one iteration of the game-js loop under
hypotheses deciding each rule. -/

theorem finalGo_cons_nomatch (prev : Option (List Char)) (i : Nat)
    (acc : List (List Char)) (line : List Char) (rest : List (List Char))
    (h1 : pyIn anchor1sub line = false)
    (h2 : pyStrip line ≠ anchor2) (h3 : pyStrip line ≠ anchor3)
    (h4 : pyStrip line ≠ anchor4) (h5 : pyStrip line ≠ anchor5)
    (h6 : pyStrip line ≠ anchor6) :
    finalGo prev i acc (line :: rest) = finalGo (some line) (i + 1) (acc ++ [line]) rest := by
  simp only [finalGo, h1, beq_eq_false_iff_ne.mpr h2, beq_eq_false_iff_ne.mpr h3,
    beq_eq_false_iff_ne.mpr h4, beq_eq_false_iff_ne.mpr h5, beq_eq_false_iff_ne.mpr h6,
    Bool.false_and, Bool.false_eq_true, if_false]

theorem finalGo_cons_rule2 (prev : Option (List Char)) (i : Nat)
    (acc : List (List Char)) (line : List Char) (rest : List (List Char))
    (h1 : pyIn anchor1sub line = false)
    (h2 : pyStrip line = anchor2) (hi : 0 < i) (hp : prevHas prev ctx2 = true) :
    finalGo prev i acc (line :: rest) =
      finalGo (some line) (i + 1) (acc ++ [line, log2]) rest := by
  have hb2 : (pyStrip line == anchor2) = true := beq_iff_eq.mpr h2
  simp only [finalGo, h1, hb2, decide_eq_true hi, hp, Bool.false_and, Bool.true_and,
    Bool.and_true, Bool.false_eq_true, if_false, if_true]

theorem finalGo_cons_rule5 (prev : Option (List Char)) (i : Nat)
    (acc : List (List Char)) (line : List Char) (rest : List (List Char))
    (h1 : pyIn anchor1sub line = false)
    (h5 : pyStrip line = anchor5) :
    finalGo prev i acc (line :: rest) =
      finalGo (some line) (i + 1) (acc ++ [line, log5]) rest := by
  have hb2 : (pyStrip line == anchor2) = false := beq_eq_false_iff_ne.mpr (by rw [h5]; decide)
  have hb3 : (pyStrip line == anchor3) = false := beq_eq_false_iff_ne.mpr (by rw [h5]; decide)
  have hb4 : (pyStrip line == anchor4) = false := beq_eq_false_iff_ne.mpr (by rw [h5]; decide)
  have hb5 : (pyStrip line == anchor5) = true := beq_iff_eq.mpr h5
  simp only [finalGo, h1, hb2, hb3, hb4, hb5, Bool.false_and, Bool.true_and,
    Bool.false_eq_true, if_false, if_true]

theorem marker_skip (content : List Char) (h : pyIn marker1 content = true) :
    add_logs_to_game_js content = RunResult.skipped := by
  unfold add_logs_to_game_js
  rw [h]
  simp

end AddDebugFinal

/-! Claims. -/

namespace AddDebugFinal

/-- Claim C1 (counterexample): applying `add_logs_to_game_js` twice is
NOT the same as applying it once.  On a buffer where only rule 2 fires,
the first run inserts a log line that contains no marker, and the
second run inserts it again: the two-fold output differs from the
one-fold output. -/
theorem C1_counterexample :
    add_logs_to_game_js (joinNl rule2Buf) = RunResult.wrote (joinNl (rule2Buf ++ [log2])) ∧
    add_logs_to_game_js (joinNl (rule2Buf ++ [log2])) =
      RunResult.wrote (joinNl (rule2Buf ++ [log2, log2])) ∧
    joinNl (rule2Buf ++ [log2, log2]) ≠ joinNl (rule2Buf ++ [log2]) := by
  refine ⟨by decide, by decide, by decide⟩

/-- Claim C1 (amended): applying the rule set twice yields the same
buffer as applying it once PROVIDED the first application leaves the
marker in the buffer (as happens whenever rule 1 fires, or the marker
was already present): the second run then short-circuits to the
already-applied skip and performs no write. -/
theorem C1_idempotent_when_marker_present (c out : List Char)
    (h : add_logs_to_game_js c = RunResult.wrote out)
    (hm : pyIn marker1 out = true) :
    add_logs_to_game_js out = RunResult.skipped :=
  marker_skip out hm

/-- Witness for C1: a buffer on which rule 1 fires, whose output
contains the marker, so the second run skips. -/
theorem C1_witness :
    add_logs_to_game_js (joinNl (rule1Buf ++ ins1)) = RunResult.skipped :=
  C1_idempotent_when_marker_present (joinNl rule1Buf) (joinNl (rule1Buf ++ ins1))
    (by decide) (by decide)

/-- Claim C2: if the marker is a substring of the buffer, the function
returns the already-present skip before any matching: no insertion is
planned or applied and the file is not written, even when anchors would
otherwise match. -/
theorem C2_marker_check_authoritative (content : List Char)
    (h : pyIn marker1 content = true) :
    add_logs_to_game_js content = RunResult.skipped :=
  marker_skip content h

/-- Witness for C2: a buffer that contains the marker AND a line that
matches rule 5 is still skipped. -/
theorem C2_witness :
    add_logs_to_game_js (joinNl ["// DEBUG: Click event occurred".data, anchor5]) =
      RunResult.skipped :=
  C2_marker_check_authoritative _ (by decide)

/-- Claim C3 (counterexample): on a buffer where every rule results in
no match (and the marker is absent), the output is byte-identical to
the input, but a write IS performed: the result is `wrote` (file
rewritten with identical content), not the no-write outcome
`skipped`. -/
theorem C3_counterexample :
    add_logs_to_game_js ("hello".data) = RunResult.wrote ("hello".data) ∧
    RunResult.wrote ("hello".data) ≠ RunResult.skipped := by
  refine ⟨by decide, by decide⟩

/-- Claim C3 (amended): if the marker is absent and no rule changes the
line list, the content written back is byte-identical to the input
(split followed by join is the identity); the write itself still
happens. -/
theorem C3_noop_is_byte_identical (content : List Char)
    (hm : pyIn marker1 content = false)
    (hp : processLines (splitNl content) = some (splitNl content)) :
    add_logs_to_game_js content = RunResult.wrote content := by
  have hm2 : pyIn marker2 content = false := by
    cases h2 : pyIn marker2 content with
    | false => rfl
    | true =>
      have h1 : pyIn marker1 content = true :=
        pyIn_trans marker1 marker2 content ((pyIn_iff marker1 marker2).1 (by decide)) h2
      rw [h1] at hm
      cases hm
  unfold add_logs_to_game_js
  rw [hm, hm2]
  simp only [Bool.or_self, Bool.false_eq_true, if_false]
  rw [hp]
  show RunResult.wrote (joinNl (splitNl content)) = RunResult.wrote content
  rw [joinNl_splitNl]

/-- Witness for C3: a two-line buffer with no anchors. -/
theorem C3_witness :
    add_logs_to_game_js ("const x = 1;\nreturn;".data) =
      RunResult.wrote ("const x = 1;\nreturn;".data) :=
  C3_noop_is_byte_identical _ (by decide) (by decide)

/-- Claim C8 (counterexample): with the first target unreadable and the
two later targets readable, the batch produces NO outcomes at all and
does not complete - the later targets are not processed - whereas a
run with all three readable produces three outcomes. -/
theorem C8_counterexample :
    mainRun none (some "x".data) (some "y".data) = ([], false) ∧
    (mainRun (some "g".data) (some "x".data) (some "y".data)).1.length = 3 := by
  refine ⟨by decide, by decide⟩

/-- Claim C8 (amended): an `IOError` on a file is NOT caught: it aborts
the entire batch, so an unreadable first target prevents all later
targets from being processed. -/
theorem C8_ioerror_aborts_batch (v i : Option (List Char)) :
    mainRun none v i = ([], false) := rfl

/-- Claim C9 (counterexample): on a buffer where rule 5's insertion
point and rule 6's insertion point both resolve to line index 1, no
conflict is reported and the file is NOT left unmodified: both
insertions are applied and the file is rewritten with changed
content. -/
theorem C9_counterexample :
    add_logs_to_game_js (joinNl conflictBuf) =
      RunResult.wrote (joinNl [anchor5, log5, emptyLine, log6, anchor6, switchLine]) ∧
    joinNl [anchor5, log5, emptyLine, log6, anchor6, switchLine] ≠ joinNl conflictBuf := by
  refine ⟨by decide, by decide⟩

/-- Claim C9 (amended): the engine performs no conflict detection:
when two rules' insertion points resolve to the same line index, both
insertions are silently applied in scan order. -/
theorem C9_overlap_applied_silently :
    processLines conflictBuf =
      some [anchor5, log5, emptyLine, log6, anchor6, switchLine] := by decide

/-- Claim C10: `add_logs_to_game_js` raises an uncaught `IndexError`
on a marker-free buffer whose final line strips to
`// Handle different phases` (rule 6 evaluates `lines[i+1]` past the
end), and it is total whenever no such line is the last line of the
buffer. -/
theorem C10_rule6_index_error :
    add_logs_to_game_js anchor6 = RunResult.err ∧
    ∀ content : List Char, pyStrip ((splitNl content).getLastD []) ≠ anchor6 →
      add_logs_to_game_js content ≠ RunResult.err := by
  constructor
  · decide
  · intro content hlast h
    unfold add_logs_to_game_js at h
    by_cases hm : (pyIn marker1 content || pyIn marker2 content) = true
    · rw [if_pos hm] at h
      cases h
    · rw [if_neg hm] at h
      cases hp : processLines (splitNl content) with
      | none =>
        refine finalGo_ne_none (splitNl content) (splitNl content).getLast? 0 [] ?_ ?_
        · intro x hx hstrip
          apply hlast
          rw [List.getLastD_eq_getLast?, hx]
          exact hstrip
        · unfold processLines at hp
          exact hp
      | some nl =>
        rw [hp] at h
        cases h

/-- Witness for C10: a buffer whose last line is not the rule-6 anchor
does not raise. -/
theorem C10_witness :
    add_logs_to_game_js ("const x = 1;".data) ≠ RunResult.err :=
  C10_rule6_index_error.2 ("const x = 1;".data) (by decide)

/-- Claim C4 (counterexample): a line that does NOT equal the anchor
text (it has two leading spaces) still matches the rule-5 exact-line
anchor, because the code compares `line.strip()` - not `line` - with
the anchor. -/
theorem C4_counterexample :
    processLines [("  ".data) ++ anchor5] = some [("  ".data) ++ anchor5, log5] ∧
    ("  ".data) ++ anchor5 ≠ anchor5 := by
  refine ⟨by decide, by decide⟩

/-- Claim C4 (amended): matching an exact-line anchor is case-sensitive
and whitespace-exact on the INTERIOR of the line, but the line's
leading and trailing whitespace is stripped before the comparison: a
single-line buffer receives the rule-5 insertion exactly when the line
is the anchor text surrounded by (possibly empty) whitespace. -/
theorem C4_match_iff_stripped_equal (line : List Char) :
    processLines [line] = some [line, log5] ↔
      ∃ pre post, wsRun pre ∧ wsRun post ∧ line = pre ++ anchor5 ++ post := by
  constructor
  · intro h
    unfold processLines at h
    have hGL : [line].getLast? = some line := rfl
    rw [hGL] at h
    simp only [finalGo] at h
    split_ifs at h with hb1 hb2 hb3 hb4 hb5 hb6
    · exfalso
      have hA := Option.some.inj h
      have hlen := congrArg List.length hA
      simp [ins1] at hlen
    · exfalso
      have hA := Option.some.inj h
      simp at hA
      exact absurd hA (by decide)
    · exfalso
      have hA := Option.some.inj h
      simp at hA
      exact absurd hA (by decide)
    · exfalso
      have hA := Option.some.inj h
      simp at hA
      exact absurd hA (by decide)
    · have h5 : pyStrip line = anchor5 := beq_iff_eq.1 hb5
      obtain ⟨pre, post, hpre, hpost, hdec⟩ := pyStrip_decomp line
      rw [h5] at hdec
      exact ⟨pre, post, hpre, hpost, hdec⟩
    · exfalso
      have hA := Option.some.inj h
      have hlen := congrArg List.length hA
      simp at hlen
  · rintro ⟨pre, post, hpre, hpost, rfl⟩
    have h1 : pyIn anchor1sub (pre ++ anchor5 ++ post) = false :=
      pyIn_padded_false anchor1sub anchor5 pre post ';' (by decide) (by decide)
        (by decide) hpre hpost
    have h5 : pyStrip (pre ++ anchor5 ++ post) = anchor5 :=
      pyStrip_pad pre anchor5 post hpre hpost (by decide) (by decide) (by decide)
    unfold processLines
    have hGL : [pre ++ anchor5 ++ post].getLast? = some (pre ++ anchor5 ++ post) := rfl
    rw [hGL, finalGo_cons_rule5 _ 0 [] _ [] h1 h5]
    rfl

/-- Witness for C4: an indented copy of the anchor line matches and
receives the insertion. -/
theorem C4_witness :
    processLines [spaces 2 ++ anchor5 ++ spaces 1] =
      some [spaces 2 ++ anchor5 ++ spaces 1, log5] :=
  (C4_match_iff_stripped_equal _).mpr
    ⟨spaces 2, spaces 1, wsRun_spaces 2, wsRun_spaces 1, rfl⟩

/-- Claim C5 (counterexample): when two lines satisfy the rule-5
anchor, the loop does NOT stop after the first match: it inserts the
log line after BOTH occurrences (two insertions by one rule in one
pass). -/
theorem C5_counterexample :
    processLines [anchor5, anchor5] = some [anchor5, log5, anchor5, log5] ∧
    List.count log5 [anchor5, log5, anchor5, log5] = 2 := by
  refine ⟨by decide, by decide⟩

/-- Claim C5 (amended): the matcher scans ALL lines and applies the
insertion at every position where the anchor holds; for any two-line
buffer both of whose lines strip to the rule-5 anchor, both lines
receive an insertion in the same pass. -/
theorem C5_inserts_at_every_match (p1 q1 p2 q2 : List Char)
    (hp1 : wsRun p1) (hq1 : wsRun q1) (hp2 : wsRun p2) (hq2 : wsRun q2) :
    processLines [p1 ++ anchor5 ++ q1, p2 ++ anchor5 ++ q2] =
      some [p1 ++ anchor5 ++ q1, log5, p2 ++ anchor5 ++ q2, log5] := by
  have h11 := pyIn_padded_false anchor1sub anchor5 p1 q1 ';' (by decide) (by decide)
    (by decide) hp1 hq1
  have h12 := pyIn_padded_false anchor1sub anchor5 p2 q2 ';' (by decide) (by decide)
    (by decide) hp2 hq2
  have h51 := pyStrip_pad p1 anchor5 q1 hp1 hq1 (by decide) (by decide) (by decide)
  have h52 := pyStrip_pad p2 anchor5 q2 hp2 hq2 (by decide) (by decide) (by decide)
  unfold processLines
  have hGL : [p1 ++ anchor5 ++ q1, p2 ++ anchor5 ++ q2].getLast? =
      some (p2 ++ anchor5 ++ q2) := rfl
  rw [hGL, finalGo_cons_rule5 _ 0 [] _ _ h11 h51, finalGo_cons_rule5 _ (0 + 1) _ _ _ h12 h52]
  rfl

/-- Witness for C5: two differently indented copies of the rule-5
anchor both receive the insertion. -/
theorem C5_witness :
    processLines [spaces 4 ++ anchor5 ++ spaces 0, spaces 0 ++ anchor5 ++ spaces 1] =
      some [spaces 4 ++ anchor5 ++ spaces 0, log5, spaces 0 ++ anchor5 ++ spaces 1, log5] :=
  C5_inserts_at_every_match (spaces 4) (spaces 0) (spaces 0) (spaces 1)
    (wsRun_spaces 4) (wsRun_spaces 0) (wsRun_spaces 0) (wsRun_spaces 1)

/-- Claim C6 (counterexample): the regex-based substitution of
add_debug_logs.py (pattern 1) does NOT leave all content outside the
insertion point unchanged: the whitespace run after the anchor is
consumed by the pattern's trailing `\s+` and replaced by fixed
whitespace, so the tab character of the input disappears from the
output. -/
theorem C6_counterexample :
    tabBuf.count '\t' = 1 ∧ (AddDebugLogs.subPattern1 tabBuf).count '\t' = 0 := by
  refine ⟨by decide, by decide⟩

/-- Claim C6 (amended): the line-based engine of add_debug_final.py
does preserve all existing content in order: whenever
`add_logs_to_game_js` writes, the original lines form a subsequence of
the output lines (nothing outside the insertion points is reordered or
altered). -/
theorem C6_line_engine_preserves_order (content out : List Char)
    (h : add_logs_to_game_js content = RunResult.wrote out) :
    List.Sublist (splitNl content) (splitNl out) := by
  unfold add_logs_to_game_js at h
  by_cases hm : (pyIn marker1 content || pyIn marker2 content) = true
  · rw [if_pos hm] at h
    cases h
  · rw [if_neg hm] at h
    cases hp : processLines (splitNl content) with
    | none =>
      rw [hp] at h
      cases h
    | some nl =>
      rw [hp] at h
      have h' : joinNl nl = out := by
        have h2 : RunResult.wrote (joinNl nl) = RunResult.wrote out := h
        injection h2
      have hp' : finalGo (splitNl content).getLast? 0 [] (splitNl content) = some nl := by
        unfold processLines at hp
        exact hp
      have hsub : List.Sublist ([] ++ splitNl content) nl :=
        finalGo_sublist (splitNl content) _ 0 [] nl hp'
      rw [List.nil_append] at hsub
      have hnlne : nl ≠ [] := by
        intro h0
        rw [h0] at hsub
        exact splitNl_ne_nil content (List.sublist_nil.mp hsub)
      have hnn : ∀ l ∈ nl, '\n' ∉ l := by
        intro l hl
        rcases finalGo_mem (splitNl content) _ 0 [] nl hp' l hl with h0 | h0 | h0
        · cases h0
        · exact splitNl_no_nl content l h0
        · have hins : ∀ x ∈ insAll, '\n' ∉ x := by decide
          exact hins l h0
      rw [← h', splitNl_joinNl nl hnlne hnn]
      exact hsub

/-- Witness for C6: a buffer with no matches is its own subsequence. -/
theorem C6_witness :
    List.Sublist (splitNl ("a".data)) (splitNl ("a".data)) :=
  C6_line_engine_preserves_order ("a".data) ("a".data) (by decide)

/-- Claim C7 (counterexample): the inserted rule-2 log line carries
fixed 12-space indentation, NOT the anchor line's leading whitespace:
with an unindented anchor line the insertion still happens but its
leading whitespace differs from the anchor's. -/
theorem C7_counterexample :
    processLines rule2Buf = some (rule2Buf ++ [log2]) ∧
    leadingWs log2 ≠ leadingWs anchor2 := by
  refine ⟨by decide, by decide⟩

/-- Claim C7 (amended): for every indentation `n` of the rule-2 anchor
line the insertion is made, and the inserted line's leading whitespace
is hard-coded: it equals the anchor line's leading whitespace exactly
when the anchor is indented by 12 spaces (the indentation the script
expects in game.js), not for every possible indentation. -/
theorem C7_indentation_is_fixed (n : Nat) :
    processLines [ctxLine2, spaces n ++ anchor2] =
      some [ctxLine2, spaces n ++ anchor2, log2] ∧
    (leadingWs log2 = leadingWs (spaces n ++ anchor2) ↔ n = 12) := by
  constructor
  · unfold processLines
    have hGL : [ctxLine2, spaces n ++ anchor2].getLast? = some (spaces n ++ anchor2) := rfl
    rw [hGL, finalGo_cons_nomatch _ 0 [] _ _ (by decide) (by decide) (by decide) (by decide)
      (by decide) (by decide)]
    have h1 : pyIn anchor1sub (spaces n ++ anchor2) = false := by
      have h0 := pyIn_padded_false anchor1sub anchor2 (spaces n) [] ';' (by decide)
        (by decide) (by decide) (wsRun_spaces n) (fun c hc => absurd hc (List.not_mem_nil c))
      simpa using h0
    have h2 : pyStrip (spaces n ++ anchor2) = anchor2 := by
      have h0 := pyStrip_pad (spaces n) anchor2 [] (wsRun_spaces n)
        (fun c hc => absurd hc (List.not_mem_nil c)) (by decide) (by decide) (by decide)
      simpa using h0
    rw [finalGo_cons_rule2 _ (0 + 1) _ _ _ h1 h2 (by omega) (by decide)]
    rfl
  · constructor
    · intro h
      have hlog : leadingWs log2 = spaces 12 := by decide
      have hl2 : leadingWs (spaces n ++ anchor2) = spaces n := by
        unfold leadingWs
        rw [takeWhile_ws_append _ _ (wsRun_spaces n)]
        have ha : anchor2.takeWhile isPySpace = [] := by decide
        rw [ha, List.append_nil]
      rw [hlog, hl2] at h
      have hlen := congrArg List.length h
      simp [spaces] at hlen
      omega
    · intro h
      subst h
      decide

/-- Witness for C7: at the expected indentation of 12 spaces the
inserted line's leading whitespace does equal the anchor's. -/
theorem C7_witness :
    processLines [ctxLine2, spaces 12 ++ anchor2] =
      some [ctxLine2, spaces 12 ++ anchor2, log2] :=
  (C7_indentation_is_fixed 12).1

end AddDebugFinal
